import Mathlib

/-!
Shallow embedding of the tic-tac-toe core of this repository:
`src/frontend_tic_tac_toe/src/utils/gameLogic.js` (board rules) and
`src/frontend_tic_tac_toe/src/utils/ai.js` (move selector).

Conventions of the embedding:
* A JS cell `'X' | 'O' | null` is `Option Mark`; `null` is `none`.
* A board is a `List Cell`; JS array indexing `board[i]`, which yields
  `undefined` out of range, is `List.get?` (with `none` for `undefined`).
* JS error messages and the mark/difficulty string arguments stay `String`,
  exactly as in the source.
* The one numeric argument that JS callers may pass as a non-integer number,
  the `index` of `validateMove`, is modelled as `Rat` so that fractional
  inputs such as `5/2` are representable; `NaN`/`Infinity` are outside the
  model.  `jsIndexGet` reproduces JS array lookup at a `Rat` subscript.
-/

inductive Mark where
  | X : Mark
  | O : Mark
deriving DecidableEq, Repr

/-- A board cell: `some m` is a placed mark, `none` is the JS `null`. -/
abbrev Cell := Option Mark

/-- The 8 winning lines, in the order of the source constant `lines`
(`gameLogic.js` 55–59 and identically `ai.js` 38–42):
rows top-to-bottom, columns left-to-right, then the two diagonals. -/
def winLines : List (Nat × Nat × Nat) :=
  [(0, 1, 2), (3, 4, 5), (6, 7, 8),
   (0, 3, 6), (1, 4, 7), (2, 5, 8),
   (0, 4, 8), (2, 4, 6)]

/-- One iteration of the winner loop (`gameLogic.js` 60–62): the guard
`board[a] && board[a] === board[b] && board[b] === board[c]` holds exactly
when cell `a` holds a mark `m` and cells `b`, `c` hold the same mark
(out-of-range access is `undefined`, which is falsy and equal to no mark). -/
def lineWinner (board : List Cell) : Nat × Nat × Nat → Option Mark
  | (a, b, c) =>
    match board.get? a with
    | some (some m) =>
        if board.get? b = some (some m) ∧ board.get? c = some (some m) then
          some m
        else none
    | _ => none

/-- `calculateWinner` (`gameLogic.js` 49–64, identically `ai.js` 37–47):
returns the mark of the first fully matched line, else `null`. -/
def calculateWinner (board : List Cell) : Option Mark :=
  winLines.findSome? (lineWinner board)

/-- `isDraw` (`gameLogic.js` 67–74, identically `ai.js` 54–56):
`!calculateWinner(board) && board.every((c) => c !== null)`. -/
def isDraw (board : List Cell) : Bool :=
  (calculateWinner board).isNone && board.all (fun c => c.isSome)

/-- `initBoard` (`gameLogic.js` 23–26): nine `null` cells. -/
def initBoard : List Cell := List.replicate 9 none

/-- The result record of `validateMove`; `reason` carries the source's
literal strings `"Invalid board"`, `"Invalid index"`, `"Cell occupied"`
(the spec's `InvalidBoard`, `InvalidIndex`, `CellOccupied`). -/
structure ValidationResult where
  valid : Bool
  reason : Option String
deriving DecidableEq, Repr

/-- JS array lookup `board[i]` at a numeric subscript `i : Rat`:
an element when `i` is a non-negative integer below the length,
`undefined` (outer `none`) otherwise. -/
def jsIndexGet (board : List Cell) (i : Rat) : Option Cell :=
  if 0 ≤ i ∧ i.den = 1 then board.get? i.num.toNat else none

/-- `validateMove` (`gameLogic.js` 29–46).  The source checks, in order:
`!Array.isArray(board) || board.length !== 9` (the model's board is always
an array, so only the length test remains); `typeof index !== 'number' ||
index < 0 || index > 8` (the model's index is always a number, so only the
range test remains — note the source does NOT test integrality);
`board[index] !== null`. -/
def validateMove (board : List Cell) (index : Rat) : ValidationResult :=
  if board.length ≠ 9 then ⟨false, some ("Invalid board")⟩
  else if index < 0 ∨ 8 < index then ⟨false, some ("Invalid index")⟩
  else if jsIndexGet board index ≠ some none then ⟨false, some ("Cell occupied")⟩
  else ⟨true, none⟩

/-! ## Move selector (`ai.js`) -/

/-- `emptyCells` (`ai.js` 63–69): the indices `i < board.length` with
`board[i] === null`, in increasing order (the source loop pushes them in
order of `i`). -/
def emptyCells (board : List Cell) : List Nat :=
  (List.range board.length).filter (fun i => decide (board.get? i = some none))

/-- `terminalScore` (`ai.js` 78–84): `+10` when the winner is `aiMark`,
`-10` when the winner is the other mark, `0` on a draw, `null` otherwise. -/
def terminalScore (board : List Cell) (aiMark : Mark) : Option Int :=
  match calculateWinner board with
  | some w => if w = aiMark then some 10 else some (-10)
  | none => if isDraw board then some 0 else none

/-- The JS expression `aiMark === 'X' ? 'O' : 'X'` (`ai.js` 110 and 124).
Note that the source computes the next mover from `aiMark`, not from
`currentMark`; this embedding reproduces that literally. -/
def flipMark (m : Mark) : Mark :=
  match m with
  | Mark.X => Mark.O
  | Mark.O => Mark.X

/-- One step of the `for (const idx of avail)` maximising loop
(`ai.js` 107–115): the accumulator is `(bestScore, bestMove)`, where
`bestScore = none` models the initial `-Infinity` (every candidate score is
a finite integer, and `score > -Infinity` holds for all of them), and the
accumulator is replaced only on strict improvement `score > bestScore`. -/
def stepMax (acc : Option Int × Option Nat) (c : Nat × Int) : Option Int × Option Nat :=
  match acc.1 with
  | none => (some c.2, some c.1)
  | some b => if b < c.2 then (some c.2, some c.1) else acc

/-- One step of the minimising loop (`ai.js` 121–129); `none` models the
initial `Infinity`, replacement happens only on strict `score < bestScore`. -/
def stepMin (acc : Option Int × Option Nat) (c : Nat × Int) : Option Int × Option Nat :=
  match acc.1 with
  | none => (some c.2, some c.1)
  | some b => if c.2 < b then (some c.2, some c.1) else acc

/-- The whole maximising loop over the candidate `(index, score)` pairs. -/
def bestFoldMax (cands : List (Nat × Int)) : Option Int × Option Nat :=
  cands.foldl stepMax (none, none)

/-- The whole minimising loop over the candidate `(index, score)` pairs. -/
def bestFoldMin (cands : List (Nat × Int)) : Option Int × Option Nat :=
  cands.foldl stepMin (none, none)

/-- Evaluation of all candidate moves of one minimax node: for each `idx` of
the available list, the source clones the board, sets `next[idx] =
currentMark` and recurses (`ai.js` 107–110 and 121–124).  `recur` is the
recursive call at one less fuel; the result is `none` as soon as any
recursive call runs out of fuel. -/
def collectScores (recur : List Cell → Option (Int × Option Nat))
    (board : List Cell) (mark : Mark) : List Nat → Option (List (Nat × Int))
  | [] => some []
  | idx :: rest =>
    match recur (board.set idx (some mark)), collectScores recur board mark rest with
    | some r, some rs => some ((idx, r.1) :: rs)
    | _, _ => none

/-- `minimax` (`ai.js` 94–131), made structurally recursive on a fuel
argument so that it stays kernel-computable; `none` means the fuel ran out
(`minimaxFuel_isSome` below shows fuel `(emptyCells board).length + 1`
always suffices, so the wrapper `minimax` never hits that case).
The branch taken when the loop result has score `none` is unreachable for a
non-empty available list; it mirrors returning the untouched initial
accumulator. -/
def minimaxFuel : Nat → List Cell → Mark → Mark → Option (Int × Option Nat)
  | 0, _, _, _ => none
  | fuel + 1, board, aiMark, currentMark =>
    match terminalScore board aiMark with
    | some t => some (t, none)
    | none =>
      let avail := emptyCells board
      if avail.length = 0 then some (0, none)
      else
        match collectScores (fun b => minimaxFuel fuel b aiMark (flipMark aiMark))
            board currentMark avail with
        | none => none
        | some cands =>
          if currentMark = aiMark then
            match bestFoldMax cands with
            | (some s, mv) => some (s, mv)
            | (none, _) => some (0, none)
          else
            match bestFoldMin cands with
            | (some s, mv) => some (s, mv)
            | (none, _) => some (0, none)

/-- The total `minimax` of the source: fuel one more than the number of
empty cells, which is always enough (`minimaxFuel_isSome_of_le`), so the
`getD` default is never used. -/
def minimax (board : List Cell) (aiMark currentMark : Mark) : Int × Option Nat :=
  (minimaxFuel ((emptyCells board).length + 1) board aiMark currentMark).getD (0, none)

/-- `getAIMove` (`ai.js` 134–178).  Errors are the source's literal
messages.  `rand` stands for the draw `Math.floor(Math.random() *
available.length)`, which JS guarantees to lie in `[0, available.length)`;
the model realises the draw as `rand % available.length` (the `getD`
default `0` is unreachable because that subscript is always in range).
The `headD 0` of the fall-back branch is the source's `available[0]`,
evaluated only when `available` is non-empty. -/
def getAIMove (board : List Cell) (aiMark difficulty : String) (rand : Nat) :
    Except String Nat :=
  if board.length ≠ 9 then Except.error ("getAIMove: Invalid board")
  else if aiMark ≠ ("X") ∧ aiMark ≠ ("O") then Except.error ("getAIMove: Invalid aiMark")
  else if difficulty ≠ ("random") ∧ difficulty ≠ ("optimal") then
    Except.error ("getAIMove: Invalid difficulty")
  else if (calculateWinner board).isSome ∨ isDraw board then
    Except.error ("getAIMove: Game is already over")
  else if (emptyCells board).length = 0 then Except.error ("getAIMove: No available moves")
  else if difficulty = ("random") then
    Except.ok ((emptyCells board).getD (rand % (emptyCells board).length) 0)
  else
    match (minimax board (if aiMark = ("X") then Mark.X else Mark.O)
        (if (board.filter (fun c => c.isSome)).length % 2 = 0 then Mark.X else Mark.O)).2 with
    | some m => Except.ok m
    | none => Except.ok ((emptyCells board).headD 0)

/-- Boolean equality of `getAIMove` results, used only to furnish a
`DecidableEq` instance so concrete runs can be settled by `decide`. -/
def exceptBeq : Except String Nat → Except String Nat → Bool
  | Except.ok a, Except.ok b => a == b
  | Except.error a, Except.error b => a == b
  | _, _ => false

instance : DecidableEq (Except String Nat) := fun a b =>
  decidable_of_iff (exceptBeq a b = true) (by
    cases a <;> cases b <;> simp [exceptBeq])

/-- The concrete fractional index `5/2`, the JS number `2.5`. -/
def idx52 : Rat := ⟨5, 2, by decide, by decide⟩

/-! ## Helper lemmas -/

theorem mem_emptyCells {board : List Cell} {i : Nat} :
    i ∈ emptyCells board ↔ i < board.length ∧ board.get? i = some none := by
  simp [emptyCells, List.mem_filter, List.mem_range]

theorem emptyCells_pairwise (board : List Cell) :
    List.Pairwise (· < ·) (emptyCells board) :=
  (List.pairwise_lt_range board.length).filter _

theorem emptyCells_nodup (board : List Cell) : (emptyCells board).Nodup :=
  (List.nodup_range board.length).filter _

theorem emptyCells_set {board : List Cell} {idx : Nat} (m : Mark)
    (h : idx ∈ emptyCells board) :
    emptyCells (board.set idx (some m)) = (emptyCells board).erase idx := by
  obtain ⟨hlt, _⟩ := mem_emptyCells.mp h
  rw [(emptyCells_nodup board).erase_eq_filter, emptyCells, emptyCells,
    List.length_set, List.filter_filter]
  refine List.filter_congr ?_
  intro a ha
  rcases eq_or_ne a idx with rfl | hne
  · simp [List.getElem?_set_self hlt]
  · simp [List.getElem?_set_ne (Ne.symm hne), hne]

theorem length_emptyCells_set {board : List Cell} {idx : Nat} (m : Mark)
    (h : idx ∈ emptyCells board) :
    (emptyCells (board.set idx (some m))).length < (emptyCells board).length := by
  rw [emptyCells_set m h, List.length_erase_of_mem h]
  exact Nat.pred_lt (Nat.pos_iff_ne_zero.mp (List.length_pos_of_mem h))

theorem length_emptyCells_le (board : List Cell) :
    (emptyCells board).length ≤ board.length := by
  calc (emptyCells board).length ≤ (List.range board.length).length :=
        List.length_filter_le _ _
    _ = board.length := List.length_range board.length

theorem emptyCells_ne_nil_of_in_progress {board : List Cell}
    (hw : calculateWinner board = none) (hd : isDraw board = false) :
    emptyCells board ≠ [] := by
  have hall : ¬ board.all (fun c => c.isSome) = true := by
    intro hba
    have htrue : isDraw board = true := by simp [isDraw, hw, hba]
    rw [hd] at htrue
    exact Bool.false_ne_true htrue
  rw [List.all_eq_true] at hall
  push_neg at hall
  obtain ⟨c, hc, hcs⟩ := hall
  have hcn : c = none := by
    cases c with
    | none => rfl
    | some m => simp at hcs
  subst hcn
  obtain ⟨n, hn⟩ := List.mem_iff_get?.mp hc
  have hlen : n < board.length := by
    by_contra hge
    rw [List.get?_eq_none.mpr (Nat.le_of_not_lt hge)] at hn
    exact Option.noConfusion hn
  intro hnil
  have hmem : n ∈ emptyCells board := mem_emptyCells.mpr ⟨hlen, hn⟩
  rw [hnil] at hmem
  exact (List.not_mem_nil n) hmem

theorem findSome_eq_none_iff {α β : Type} (f : α → Option β) :
    ∀ l : List α, l.findSome? f = none ↔ ∀ a ∈ l, f a = none := by
  intro l
  induction l with
  | nil => simp
  | cons a as ih =>
    rw [List.findSome?_cons]
    cases hfa : f a with
    | some b => simp [hfa]
    | none => simpa [hfa] using ih

theorem findSome_eq_some_split {α β : Type} (f : α → Option β) :
    ∀ (l : List α) (b : β), l.findSome? f = some b →
      ∃ l₁ a l₂, l = l₁ ++ a :: l₂ ∧ f a = some b ∧ ∀ x ∈ l₁, f x = none := by
  intro l
  induction l with
  | nil => intro b h; simp at h
  | cons a as ih =>
    intro b h
    rw [List.findSome?_cons] at h
    cases hfa : f a with
    | some b' =>
      rw [hfa] at h
      simp at h
      subst h
      exact ⟨[], a, as, by simp, hfa, by simp⟩
    | none =>
      rw [hfa] at h
      obtain ⟨l₁, x, l₂, hsplit, hfx, hnone⟩ := ih b h
      refine ⟨a :: l₁, x, l₂, by simp [hsplit], hfx, ?_⟩
      intro y hy
      rcases List.mem_cons.mp hy with rfl | hy'
      · exact hfa
      · exact hnone y hy'

theorem findSome_of_split {α β : Type} (f : α → Option β) (l₁ : List α) (a : α)
    (l₂ : List α) (b : β) (hfa : f a = some b) (hnone : ∀ x ∈ l₁, f x = none) :
    (l₁ ++ a :: l₂).findSome? f = some b := by
  induction l₁ with
  | nil => simp [List.findSome?_cons, hfa]
  | cons x xs ih =>
    rw [List.cons_append, List.findSome?_cons, hnone x (by simp)]
    exact ih (fun y hy => hnone y (List.mem_cons_of_mem x hy))

theorem foldMax_shape : ∀ (cs : List (Nat × Int)) (b : Int) (mb : Nat),
    ∃ s m, cs.foldl stepMax (some b, some mb) = (some s, some m) := by
  intro cs
  induction cs with
  | nil => exact fun b mb => ⟨b, mb, rfl⟩
  | cons c cs ih =>
    intro b mb
    rw [List.foldl_cons]
    show ∃ s m, List.foldl stepMax (stepMax (some b, some mb) c) cs = (some s, some m)
    rw [stepMax]
    by_cases hbc : b < c.2
    · simpa [hbc] using ih c.2 c.1
    · simpa [hbc] using ih b mb

theorem foldMin_shape : ∀ (cs : List (Nat × Int)) (b : Int) (mb : Nat),
    ∃ s m, cs.foldl stepMin (some b, some mb) = (some s, some m) := by
  intro cs
  induction cs with
  | nil => exact fun b mb => ⟨b, mb, rfl⟩
  | cons c cs ih =>
    intro b mb
    rw [List.foldl_cons]
    show ∃ s m, List.foldl stepMin (stepMin (some b, some mb) c) cs = (some s, some m)
    rw [stepMin]
    by_cases hbc : c.2 < b
    · simpa [hbc] using ih c.2 c.1
    · simpa [hbc] using ih b mb

theorem foldMax_split :
    ∀ (cs : List (Nat × Int)) (b : Int) (mb : Nat) (s : Int) (m : Nat),
      cs.foldl stepMax (some b, some mb) = (some s, some m) →
      (s = b ∧ m = mb ∧ ∀ p ∈ cs, p.2 ≤ b) ∨
      (b < s ∧ ∃ l₁ l₂, cs = l₁ ++ (m, s) :: l₂ ∧
        (∀ p ∈ l₁, p.2 < s) ∧ ∀ p ∈ l₂, p.2 ≤ s) := by
  intro cs
  induction cs with
  | nil =>
    intro b mb s m h
    simp only [List.foldl_nil, Prod.mk.injEq, Option.some.injEq] at h
    exact Or.inl ⟨h.1.symm, h.2.symm, by simp⟩
  | cons c cs ih =>
    intro b mb s m h
    rw [List.foldl_cons] at h
    have hstep : stepMax (some b, some mb) c =
        if b < c.2 then (some c.2, some c.1) else (some b, some mb) := rfl
    rw [hstep] at h
    by_cases hbc : b < c.2
    · rw [if_pos hbc] at h
      rcases ih c.2 c.1 s m h with ⟨hs, hm, hall⟩ | ⟨hlt, l₁, l₂, hsplit, hbef, haft⟩
      · refine Or.inr ⟨hs ▸ hbc, [], cs, ?_, by simp, hs ▸ hall⟩
        simp [hs, hm]
      · exact Or.inr ⟨lt_trans hbc hlt, c :: l₁, l₂, by simp [hsplit],
          fun p hp => (List.mem_cons.mp hp).elim (fun he => he ▸ hlt)
            (fun hin => hbef p hin), haft⟩
    · rw [if_neg hbc] at h
      rcases ih b mb s m h with ⟨hs, hm, hall⟩ | ⟨hlt, l₁, l₂, hsplit, hbef, haft⟩
      · exact Or.inl ⟨hs, hm, fun p hp => (List.mem_cons.mp hp).elim
          (fun he => he ▸ le_of_not_lt hbc) (fun hin => hall p hin)⟩
      · exact Or.inr ⟨hlt, c :: l₁, l₂, by simp [hsplit],
          fun p hp => (List.mem_cons.mp hp).elim
            (fun he => he ▸ lt_of_le_of_lt (le_of_not_lt hbc) hlt)
            (fun hin => hbef p hin), haft⟩

theorem foldMin_split :
    ∀ (cs : List (Nat × Int)) (b : Int) (mb : Nat) (s : Int) (m : Nat),
      cs.foldl stepMin (some b, some mb) = (some s, some m) →
      (s = b ∧ m = mb ∧ ∀ p ∈ cs, b ≤ p.2) ∨
      (s < b ∧ ∃ l₁ l₂, cs = l₁ ++ (m, s) :: l₂ ∧
        (∀ p ∈ l₁, s < p.2) ∧ ∀ p ∈ l₂, s ≤ p.2) := by
  intro cs
  induction cs with
  | nil =>
    intro b mb s m h
    simp only [List.foldl_nil, Prod.mk.injEq, Option.some.injEq] at h
    exact Or.inl ⟨h.1.symm, h.2.symm, by simp⟩
  | cons c cs ih =>
    intro b mb s m h
    rw [List.foldl_cons] at h
    have hstep : stepMin (some b, some mb) c =
        if c.2 < b then (some c.2, some c.1) else (some b, some mb) := rfl
    rw [hstep] at h
    by_cases hbc : c.2 < b
    · rw [if_pos hbc] at h
      rcases ih c.2 c.1 s m h with ⟨hs, hm, hall⟩ | ⟨hlt, l₁, l₂, hsplit, hbef, haft⟩
      · refine Or.inr ⟨hs ▸ hbc, [], cs, ?_, by simp, hs ▸ hall⟩
        simp [hs, hm]
      · exact Or.inr ⟨lt_trans hlt hbc, c :: l₁, l₂, by simp [hsplit],
          fun p hp => (List.mem_cons.mp hp).elim (fun he => he ▸ hlt)
            (fun hin => hbef p hin), haft⟩
    · rw [if_neg hbc] at h
      rcases ih b mb s m h with ⟨hs, hm, hall⟩ | ⟨hlt, l₁, l₂, hsplit, hbef, haft⟩
      · exact Or.inl ⟨hs, hm, fun p hp => (List.mem_cons.mp hp).elim
          (fun he => he ▸ le_of_not_lt hbc) (fun hin => hall p hin)⟩
      · exact Or.inr ⟨hlt, c :: l₁, l₂, by simp [hsplit],
          fun p hp => (List.mem_cons.mp hp).elim
            (fun he => he ▸ lt_of_lt_of_le hlt (le_of_not_lt hbc))
            (fun hin => hbef p hin), haft⟩

theorem bestFoldMax_split {cands : List (Nat × Int)} {s : Int} {m : Nat}
    (h : bestFoldMax cands = (some s, some m)) :
    ∃ l₁ l₂, cands = l₁ ++ (m, s) :: l₂ ∧ (∀ p ∈ l₁, p.2 < s) ∧ ∀ p ∈ l₂, p.2 ≤ s := by
  cases cands with
  | nil => simp [bestFoldMax] at h
  | cons c cs =>
    obtain ⟨c1, c2⟩ := c
    rw [bestFoldMax, List.foldl_cons] at h
    have hs0 : stepMax (none, none) (c1, c2) = (some c2, some c1) := rfl
    rw [hs0] at h
    rcases foldMax_split cs c2 c1 s m h with ⟨hs, hm, hall⟩ | ⟨hlt, l₁, l₂, hsplit, hbef, haft⟩
    · exact ⟨[], cs, by simp [hs, hm], by simp, hs ▸ hall⟩
    · exact ⟨(c1, c2) :: l₁, l₂, by simp [hsplit],
        fun p hp => (List.mem_cons.mp hp).elim (fun he => he ▸ hlt)
          (fun hin => hbef p hin), haft⟩

theorem bestFoldMin_split {cands : List (Nat × Int)} {s : Int} {m : Nat}
    (h : bestFoldMin cands = (some s, some m)) :
    ∃ l₁ l₂, cands = l₁ ++ (m, s) :: l₂ ∧ (∀ p ∈ l₁, s < p.2) ∧ ∀ p ∈ l₂, s ≤ p.2 := by
  cases cands with
  | nil => simp [bestFoldMin] at h
  | cons c cs =>
    obtain ⟨c1, c2⟩ := c
    rw [bestFoldMin, List.foldl_cons] at h
    have hs0 : stepMin (none, none) (c1, c2) = (some c2, some c1) := rfl
    rw [hs0] at h
    rcases foldMin_split cs c2 c1 s m h with ⟨hs, hm, hall⟩ | ⟨hlt, l₁, l₂, hsplit, hbef, haft⟩
    · exact ⟨[], cs, by simp [hs, hm], by simp, hs ▸ hall⟩
    · exact ⟨(c1, c2) :: l₁, l₂, by simp [hsplit],
        fun p hp => (List.mem_cons.mp hp).elim (fun he => he ▸ hlt)
          (fun hin => hbef p hin), haft⟩

theorem collectScores_map_fst {recur : List Cell → Option (Int × Option Nat)}
    {board : List Cell} {mark : Mark} :
    ∀ {l : List Nat} {cands : List (Nat × Int)},
      collectScores recur board mark l = some cands → cands.map Prod.fst = l := by
  intro l
  induction l with
  | nil =>
    intro cands h
    rw [collectScores] at h
    cases h
    simp
  | cons idx rest ih =>
    intro cands h
    rw [collectScores] at h
    cases hr : recur (board.set idx (some mark)) with
    | none => rw [hr] at h; exact absurd h (by simp)
    | some r =>
      rw [hr] at h
      cases hcs : collectScores recur board mark rest with
      | none => rw [hcs] at h; exact absurd h (by simp)
      | some rs =>
        rw [hcs] at h
        simp only [Option.some.injEq] at h
        subst h
        simp [ih hcs]

theorem collectScores_isSome {recur : List Cell → Option (Int × Option Nat)}
    {board : List Cell} {mark : Mark} :
    ∀ {l : List Nat}, (∀ idx ∈ l, (recur (board.set idx (some mark))).isSome) →
      (collectScores recur board mark l).isSome := by
  intro l
  induction l with
  | nil => intro _; rw [collectScores]; rfl
  | cons idx rest ih =>
    intro hall
    rw [collectScores]
    obtain ⟨r, hr⟩ := Option.isSome_iff_exists.mp (hall idx (by simp))
    obtain ⟨rs, hrs⟩ := Option.isSome_iff_exists.mp
      (ih fun j hj => hall j (List.mem_cons_of_mem idx hj))
    rw [hr, hrs]
    rfl

theorem minimaxFuel_isSome :
    ∀ (fuel : Nat) (board : List Cell) (ai cm : Mark),
      (emptyCells board).length < fuel → (minimaxFuel fuel board ai cm).isSome := by
  intro fuel
  induction fuel with
  | zero => intro board ai cm h; exact absurd h (Nat.not_lt_zero _)
  | succ fuel ih =>
    intro board ai cm h
    rw [minimaxFuel]
    cases hterm : terminalScore board ai with
    | some t => rfl
    | none =>
      simp only
      by_cases hav : (emptyCells board).length = 0
      · rw [if_pos hav]; rfl
      · rw [if_neg hav]
        have hcoll : (collectScores (fun b => minimaxFuel fuel b ai (flipMark ai))
            board cm (emptyCells board)).isSome := by
          refine collectScores_isSome ?_
          intro idx hidx
          refine ih _ ai (flipMark ai) ?_
          have hdec := length_emptyCells_set cm hidx
          exact Nat.lt_of_lt_of_le hdec (Nat.lt_succ_iff.mp h)
        obtain ⟨cands, hcands⟩ := Option.isSome_iff_exists.mp hcoll
        rw [hcands]
        dsimp only
        by_cases hcm : cm = ai
        · rw [if_pos hcm]
          rcases hbf : bestFoldMax cands with ⟨os, om⟩
          cases os <;> rfl
        · rw [if_neg hcm]
          rcases hbf : bestFoldMin cands with ⟨os, om⟩
          cases os <;> rfl

theorem minimax_eq_fuel (board : List Cell) (ai cm : Mark) :
    minimaxFuel ((emptyCells board).length + 1) board ai cm = some (minimax board ai cm) := by
  obtain ⟨v, hv⟩ := Option.isSome_iff_exists.mp
    (minimaxFuel_isSome ((emptyCells board).length + 1) board ai cm (Nat.lt_succ_self _))
  rw [minimax, hv]
  rfl

theorem minimaxFuel_move_inv {fuel : Nat} {board : List Cell} {ai cm : Mark}
    {s : Int} {m : Nat}
    (h : minimaxFuel fuel board ai cm = some (s, some m)) :
    ∃ fuel' cands, fuel = fuel' + 1 ∧ terminalScore board ai = none ∧
      (emptyCells board).length ≠ 0 ∧
      collectScores (fun b => minimaxFuel fuel' b ai (flipMark ai)) board cm
        (emptyCells board) = some cands ∧
      cands.map Prod.fst = emptyCells board ∧
      ((cm = ai ∧ bestFoldMax cands = (some s, some m)) ∨
       (cm ≠ ai ∧ bestFoldMin cands = (some s, some m))) := by
  cases fuel with
  | zero => rw [minimaxFuel] at h; exact absurd h (by simp)
  | succ fuel =>
    rw [minimaxFuel] at h
    cases hterm : terminalScore board ai with
    | some t => rw [hterm] at h; simp at h
    | none =>
      rw [hterm] at h
      dsimp only at h
      by_cases hav : (emptyCells board).length = 0
      · rw [if_pos hav] at h; simp at h
      · rw [if_neg hav] at h
        cases hcoll : collectScores (fun b => minimaxFuel fuel b ai (flipMark ai))
            board cm (emptyCells board) with
        | none => rw [hcoll] at h; exact absurd h (by simp)
        | some cands =>
          rw [hcoll] at h
          dsimp only at h
          by_cases hcm : cm = ai
          · rw [if_pos hcm] at h
            refine ⟨fuel, cands, rfl, rfl, hav, hcoll,
              collectScores_map_fst hcoll, Or.inl ⟨hcm, ?_⟩⟩
            rcases hbf : bestFoldMax cands with ⟨os, om⟩
            rw [hbf] at h
            cases os with
            | none => simp at h
            | some s' =>
              simp only [Prod.mk.injEq, Option.some.injEq] at h
              rw [h.1, h.2]
          · rw [if_neg hcm] at h
            refine ⟨fuel, cands, rfl, rfl, hav, hcoll,
              collectScores_map_fst hcoll, Or.inr ⟨hcm, ?_⟩⟩
            rcases hbf : bestFoldMin cands with ⟨os, om⟩
            rw [hbf] at h
            cases os with
            | none => simp at h
            | some s' =>
              simp only [Prod.mk.injEq, Option.some.injEq] at h
              rw [h.1, h.2]

theorem minimaxFuel_move_mem {fuel : Nat} {board : List Cell} {ai cm : Mark}
    {s : Int} {m : Nat}
    (h : minimaxFuel fuel board ai cm = some (s, some m)) : m ∈ emptyCells board := by
  obtain ⟨fuel', cands, _, _, _, hcoll, hmap, hcase⟩ := minimaxFuel_move_inv h
  have hmem : (m, s) ∈ cands := by
    rcases hcase with ⟨_, hbf⟩ | ⟨_, hbf⟩
    · obtain ⟨l₁, l₂, hsplit, _, _⟩ := bestFoldMax_split hbf
      rw [hsplit]
      exact List.mem_append_right _ (List.mem_cons_self _ _)
    · obtain ⟨l₁, l₂, hsplit, _, _⟩ := bestFoldMin_split hbf
      rw [hsplit]
      exact List.mem_append_right _ (List.mem_cons_self _ _)
  rw [← hmap]
  exact List.mem_map_of_mem Prod.fst hmem

theorem getAIMove_invalid_board {board : List Cell} {a d : String} {r : Nat}
    (h : board.length ≠ 9) :
    getAIMove board a d r = Except.error ("getAIMove: Invalid board") := by
  rw [getAIMove, if_pos h]

theorem getAIMove_invalid_mark {board : List Cell} {a d : String} {r : Nat}
    (h9 : board.length = 9) (hx : a ≠ ("X")) (ho : a ≠ ("O")) :
    getAIMove board a d r = Except.error ("getAIMove: Invalid aiMark") := by
  rw [getAIMove, if_neg (fun hc => hc h9), if_pos ⟨hx, ho⟩]

theorem getAIMove_invalid_difficulty {board : List Cell} {a d : String} {r : Nat}
    (h9 : board.length = 9) (ha : a = ("X") ∨ a = ("O"))
    (hr : d ≠ ("random")) (hopt : d ≠ ("optimal")) :
    getAIMove board a d r = Except.error ("getAIMove: Invalid difficulty") := by
  have hna : ¬(a ≠ ("X") ∧ a ≠ ("O")) := by
    rcases ha with h | h <;> simp [h]
  rw [getAIMove, if_neg (fun hc => hc h9), if_neg hna, if_pos ⟨hr, hopt⟩]

theorem getAIMove_game_over {board : List Cell} {a d : String} {r : Nat}
    (h9 : board.length = 9) (ha : a = ("X") ∨ a = ("O"))
    (hd : d = ("random") ∨ d = ("optimal"))
    (hover : (calculateWinner board).isSome = true ∨ isDraw board = true) :
    getAIMove board a d r = Except.error ("getAIMove: Game is already over") := by
  have hna : ¬(a ≠ ("X") ∧ a ≠ ("O")) := by rcases ha with h | h <;> simp [h]
  have hndif : ¬(d ≠ ("random") ∧ d ≠ ("optimal")) := by rcases hd with h | h <;> simp [h]
  rw [getAIMove, if_neg (fun hc => hc h9), if_neg hna, if_neg hndif, if_pos hover]

theorem getAIMove_ok {board : List Cell} {a d : String} {r : Nat}
    (h9 : board.length = 9) (ha : a = ("X") ∨ a = ("O"))
    (hd : d = ("random") ∨ d = ("optimal"))
    (hw : calculateWinner board = none) (hnd : isDraw board = false) :
    ∃ i, getAIMove board a d r = Except.ok i := by
  have hna : ¬(a ≠ ("X") ∧ a ≠ ("O")) := by rcases ha with h | h <;> simp [h]
  have hndif : ¬(d ≠ ("random") ∧ d ≠ ("optimal")) := by rcases hd with h | h <;> simp [h]
  have hnover : ¬((calculateWinner board).isSome = true ∨ isDraw board = true) := by
    simp [hw, hnd]
  have hlen : ¬((emptyCells board).length = 0) := by
    have hne := emptyCells_ne_nil_of_in_progress hw hnd
    simpa [List.length_eq_zero] using hne
  rw [getAIMove, if_neg (fun hc => hc h9), if_neg hna, if_neg hndif, if_neg hnover,
    if_neg hlen]
  by_cases hrd : d = ("random")
  · rw [if_pos hrd]
    exact ⟨_, rfl⟩
  · rw [if_neg hrd]
    cases (minimax board (if a = ("X") then Mark.X else Mark.O)
        (if (board.filter (fun c => c.isSome)).length % 2 = 0 then Mark.X
          else Mark.O)).2 with
    | some m => exact ⟨m, rfl⟩
    | none => exact ⟨_, rfl⟩

theorem foldMin_acc_le :
    ∀ (cs : List (Nat × Int)) (b : Int) (mb : Option Nat) (s : Int) (m : Option Nat),
      cs.foldl stepMin (some b, mb) = (some s, m) → s ≤ b ∧ ∀ p ∈ cs, s ≤ p.2 := by
  intro cs
  induction cs with
  | nil =>
    intro b mb s m h
    simp only [List.foldl_nil, Prod.mk.injEq, Option.some.injEq] at h
    exact ⟨le_of_eq h.1.symm, by simp⟩
  | cons c cs ih =>
    intro b mb s m h
    rw [List.foldl_cons] at h
    have hstep : stepMin (some b, mb) c =
        if c.2 < b then (some c.2, some c.1) else (some b, mb) := rfl
    rw [hstep] at h
    by_cases hbc : c.2 < b
    · rw [if_pos hbc] at h
      obtain ⟨h1, h2⟩ := ih c.2 (some c.1) s m h
      exact ⟨le_trans h1 (le_of_lt hbc),
        fun p hp => (List.mem_cons.mp hp).elim (fun he => he ▸ h1) (h2 p)⟩
    · rw [if_neg hbc] at h
      obtain ⟨h1, h2⟩ := ih b mb s m h
      exact ⟨h1, fun p hp => (List.mem_cons.mp hp).elim
        (fun he => he ▸ le_trans h1 (le_of_not_lt hbc)) (h2 p)⟩

theorem bestFoldMin_le {cands : List (Nat × Int)} {s : Int} {m : Option Nat}
    (h : bestFoldMin cands = (some s, m)) : ∀ p ∈ cands, s ≤ p.2 := by
  cases cands with
  | nil => simp [bestFoldMin] at h
  | cons c cs =>
    rw [bestFoldMin, List.foldl_cons] at h
    have hs0 : stepMin (none, none) c = (some c.2, some c.1) := rfl
    rw [hs0] at h
    obtain ⟨h1, h2⟩ := foldMin_acc_le cs c.2 (some c.1) s m h
    exact fun p hp => (List.mem_cons.mp hp).elim (fun he => he ▸ h1) (h2 p)

theorem foldMax_result_mem :
    ∀ (cs : List (Nat × Int)) (b : Int) (mb : Option Nat) (s : Int) (m : Option Nat),
      cs.foldl stepMax (some b, mb) = (some s, m) → s = b ∨ ∃ p ∈ cs, p.2 = s := by
  intro cs
  induction cs with
  | nil =>
    intro b mb s m h
    simp only [List.foldl_nil, Prod.mk.injEq, Option.some.injEq] at h
    exact Or.inl h.1.symm
  | cons c cs ih =>
    intro b mb s m h
    rw [List.foldl_cons] at h
    have hstep : stepMax (some b, mb) c =
        if b < c.2 then (some c.2, some c.1) else (some b, mb) := rfl
    rw [hstep] at h
    by_cases hbc : b < c.2
    · rw [if_pos hbc] at h
      rcases ih c.2 (some c.1) s m h with hs | ⟨p, hp, hps⟩
      · exact Or.inr ⟨c, by simp, hs.symm⟩
      · exact Or.inr ⟨p, List.mem_cons_of_mem c hp, hps⟩
    · rw [if_neg hbc] at h
      rcases ih b mb s m h with hs | ⟨p, hp, hps⟩
      · exact Or.inl hs
      · exact Or.inr ⟨p, List.mem_cons_of_mem c hp, hps⟩

theorem bestFoldMax_result_mem {cands : List (Nat × Int)} {s : Int} {m : Option Nat}
    (h : bestFoldMax cands = (some s, m)) : ∃ p ∈ cands, p.2 = s := by
  cases cands with
  | nil => simp [bestFoldMax] at h
  | cons c cs =>
    rw [bestFoldMax, List.foldl_cons] at h
    have hs0 : stepMax (none, none) c = (some c.2, some c.1) := rfl
    rw [hs0] at h
    rcases foldMax_result_mem cs c.2 (some c.1) s m h with hs | ⟨p, hp, hps⟩
    · exact ⟨c, by simp, hs.symm⟩
    · exact ⟨p, List.mem_cons_of_mem c hp, hps⟩

theorem foldMin_result_mem :
    ∀ (cs : List (Nat × Int)) (b : Int) (mb : Option Nat) (s : Int) (m : Option Nat),
      cs.foldl stepMin (some b, mb) = (some s, m) → s = b ∨ ∃ p ∈ cs, p.2 = s := by
  intro cs
  induction cs with
  | nil =>
    intro b mb s m h
    simp only [List.foldl_nil, Prod.mk.injEq, Option.some.injEq] at h
    exact Or.inl h.1.symm
  | cons c cs ih =>
    intro b mb s m h
    rw [List.foldl_cons] at h
    have hstep : stepMin (some b, mb) c =
        if c.2 < b then (some c.2, some c.1) else (some b, mb) := rfl
    rw [hstep] at h
    by_cases hbc : c.2 < b
    · rw [if_pos hbc] at h
      rcases ih c.2 (some c.1) s m h with hs | ⟨p, hp, hps⟩
      · exact Or.inr ⟨c, by simp, hs.symm⟩
      · exact Or.inr ⟨p, List.mem_cons_of_mem c hp, hps⟩
    · rw [if_neg hbc] at h
      rcases ih b mb s m h with hs | ⟨p, hp, hps⟩
      · exact Or.inl hs
      · exact Or.inr ⟨p, List.mem_cons_of_mem c hp, hps⟩

theorem bestFoldMin_result_mem {cands : List (Nat × Int)} {s : Int} {m : Option Nat}
    (h : bestFoldMin cands = (some s, m)) : ∃ p ∈ cands, p.2 = s := by
  cases cands with
  | nil => simp [bestFoldMin] at h
  | cons c cs =>
    rw [bestFoldMin, List.foldl_cons] at h
    have hs0 : stepMin (none, none) c = (some c.2, some c.1) := rfl
    rw [hs0] at h
    rcases foldMin_result_mem cs c.2 (some c.1) s m h with hs | ⟨p, hp, hps⟩
    · exact ⟨c, by simp, hs.symm⟩
    · exact ⟨p, List.mem_cons_of_mem c hp, hps⟩

theorem collectScores_mem {recur : List Cell → Option (Int × Option Nat)}
    {board : List Cell} {mark : Mark} :
    ∀ {l : List Nat} {cands : List (Nat × Int)},
      collectScores recur board mark l = some cands →
      ∀ idx ∈ l, ∃ r, recur (board.set idx (some mark)) = some r ∧ (idx, r.1) ∈ cands := by
  intro l
  induction l with
  | nil => intro cands _ idx hidx; exact absurd hidx (List.not_mem_nil idx)
  | cons j rest ih =>
    intro cands h idx hidx
    rw [collectScores] at h
    cases hr : recur (board.set j (some mark)) with
    | none => rw [hr] at h; exact absurd h (by simp)
    | some r =>
      rw [hr] at h
      cases hcs : collectScores recur board mark rest with
      | none => rw [hcs] at h; exact absurd h (by simp)
      | some rs =>
        rw [hcs] at h
        simp only [Option.some.injEq] at h
        subst h
        rcases List.mem_cons.mp hidx with rfl | hmem
        · exact ⟨r, hr, by simp⟩
        · obtain ⟨r2, hr2, hm2⟩ := ih hcs idx hmem
          exact ⟨r2, hr2, List.mem_cons_of_mem _ hm2⟩

theorem collectScores_mem_rev {recur : List Cell → Option (Int × Option Nat)}
    {board : List Cell} {mark : Mark} :
    ∀ {l : List Nat} {cands : List (Nat × Int)},
      collectScores recur board mark l = some cands →
      ∀ p ∈ cands, ∃ r, recur (board.set p.1 (some mark)) = some r ∧ r.1 = p.2 := by
  intro l
  induction l with
  | nil =>
    intro cands h p hp
    rw [collectScores] at h
    cases h
    exact absurd hp (List.not_mem_nil p)
  | cons j rest ih =>
    intro cands h p hp
    rw [collectScores] at h
    cases hr : recur (board.set j (some mark)) with
    | none => rw [hr] at h; exact absurd h (by simp)
    | some r =>
      rw [hr] at h
      cases hcs : collectScores recur board mark rest with
      | none => rw [hcs] at h; exact absurd h (by simp)
      | some rs =>
        rw [hcs] at h
        simp only [Option.some.injEq] at h
        subst h
        rcases List.mem_cons.mp hp with rfl | hmem
        · exact ⟨r, hr, rfl⟩
        · exact ih hcs p hmem

theorem terminalScore_bounds {board : List Cell} {ai : Mark} {t : Int}
    (h : terminalScore board ai = some t) : -10 ≤ t ∧ t ≤ 10 := by
  rw [terminalScore] at h
  cases hw : calculateWinner board with
  | some w =>
    rw [hw] at h
    dsimp only at h
    by_cases hwa : w = ai
    · rw [if_pos hwa] at h
      cases h
      exact ⟨by norm_num, by norm_num⟩
    · rw [if_neg hwa] at h
      cases h
      exact ⟨by norm_num, by norm_num⟩
  | none =>
    rw [hw] at h
    dsimp only at h
    by_cases hd : isDraw board
    · rw [if_pos hd] at h
      cases h
      exact ⟨by norm_num, by norm_num⟩
    · rw [if_neg hd] at h
      exact absurd h (by simp)

theorem flipMark_ne (m : Mark) : flipMark m ≠ m := by
  cases m <;> simp [flipMark]

theorem minimaxFuel_bounds :
    ∀ (fuel : Nat) (b : List Cell) (ai cm : Mark) (s : Int) (mv : Option Nat),
      minimaxFuel fuel b ai cm = some (s, mv) → -10 ≤ s ∧ s ≤ 10 := by
  intro fuel
  induction fuel with
  | zero =>
    intro b ai cm s mv h
    rw [minimaxFuel] at h
    exact absurd h (by simp)
  | succ fuel ih =>
    intro b ai cm s mv h
    rw [minimaxFuel] at h
    cases hterm : terminalScore b ai with
    | some t =>
      rw [hterm] at h
      simp only [Option.some.injEq, Prod.mk.injEq] at h
      exact h.1 ▸ terminalScore_bounds hterm
    | none =>
      rw [hterm] at h
      dsimp only at h
      by_cases hav : (emptyCells b).length = 0
      · rw [if_pos hav] at h
        simp only [Option.some.injEq, Prod.mk.injEq] at h
        exact h.1 ▸ ⟨by norm_num, by norm_num⟩
      · rw [if_neg hav] at h
        cases hcoll : collectScores (fun bd => minimaxFuel fuel bd ai (flipMark ai))
            b cm (emptyCells b) with
        | none => rw [hcoll] at h; exact absurd h (by simp)
        | some cands =>
          rw [hcoll] at h
          dsimp only at h
          have hbound : ∀ p ∈ cands, -10 ≤ p.2 ∧ p.2 ≤ 10 := by
            intro p hp
            obtain ⟨r, hr, hr1⟩ := collectScores_mem_rev hcoll p hp
            obtain ⟨r1, r2⟩ := r
            exact hr1 ▸ ih _ ai (flipMark ai) r1 r2 hr
          by_cases hcm : cm = ai
          · rw [if_pos hcm] at h
            rcases hbf : bestFoldMax cands with ⟨os, om⟩
            rw [hbf] at h
            cases os with
            | none =>
              simp only [Option.some.injEq, Prod.mk.injEq] at h
              exact h.1 ▸ ⟨by norm_num, by norm_num⟩
            | some s0 =>
              simp only [Option.some.injEq, Prod.mk.injEq] at h
              obtain ⟨p, hp, hps⟩ := bestFoldMax_result_mem hbf
              exact h.1 ▸ hps ▸ hbound p hp
          · rw [if_neg hcm] at h
            rcases hbf : bestFoldMin cands with ⟨os, om⟩
            rw [hbf] at h
            cases os with
            | none =>
              simp only [Option.some.injEq, Prod.mk.injEq] at h
              exact h.1 ▸ ⟨by norm_num, by norm_num⟩
            | some s0 =>
              simp only [Option.some.injEq, Prod.mk.injEq] at h
              obtain ⟨p, hp, hps⟩ := bestFoldMin_result_mem hbf
              exact h.1 ▸ hps ▸ hbound p hp

theorem minimaxFuel_min_le {f : Nat} {b : List Cell} {ai cm : Mark} {s : Int}
    {mv : Option Nat} (hne : cm ≠ ai) (hterm0 : terminalScore b ai = none)
    (h : minimaxFuel (f + 1) b ai cm = some (s, mv))
    {idx : Nat} (hidx : idx ∈ emptyCells b) {s2 : Int} {mv2 : Option Nat}
    (hchild : minimaxFuel f (b.set idx (some cm)) ai (flipMark ai) = some (s2, mv2)) :
    s ≤ s2 := by
  rw [minimaxFuel, hterm0] at h
  dsimp only at h
  have hav : ¬ (emptyCells b).length = 0 := by
    intro h0
    rw [List.length_eq_zero] at h0
    rw [h0] at hidx
    exact List.not_mem_nil idx hidx
  rw [if_neg hav] at h
  cases hcoll : collectScores (fun bd => minimaxFuel f bd ai (flipMark ai))
      b cm (emptyCells b) with
  | none => rw [hcoll] at h; exact absurd h (by simp)
  | some cands =>
    rw [hcoll] at h
    dsimp only at h
    rw [if_neg hne] at h
    obtain ⟨r, hr, hmem⟩ := collectScores_mem hcoll idx hidx
    rw [hchild] at hr
    cases hr
    rcases hbf : bestFoldMin cands with ⟨os, om⟩
    rw [hbf] at h
    cases os with
    | none =>
      exfalso
      have hcne : cands ≠ [] := by
        intro hc
        rw [hc] at hmem
        exact List.not_mem_nil _ hmem
      cases hcands : cands with
      | nil => exact hcne hcands
      | cons c cs =>
        obtain ⟨s3, m3, h3⟩ := foldMin_shape cs c.2 c.1
        rw [hcands] at hbf
        rw [bestFoldMin, List.foldl_cons] at hbf
        have hs0 : stepMin (none, none) c = (some c.2, some c.1) := rfl
        rw [hs0, h3] at hbf
        exact Option.noConfusion (congrArg Prod.fst hbf)
    | some s0 =>
      simp only [Option.some.injEq, Prod.mk.injEq] at h
      exact h.1 ▸ bestFoldMin_le hbf (idx, s2) hmem

theorem minimaxFuel_forced_loss {f : Nat} {b : List Cell} {ai cm : Mark}
    (hcm : cm = flipMark ai) {i1 i2 : Nat}
    (hi1 : i1 ∈ emptyCells b) (hi2 : i2 ∈ emptyCells (b.set i1 (some cm)))
    (hfuel : (emptyCells b).length < f + 2)
    (ht0 : terminalScore b ai = none)
    (ht1 : terminalScore (b.set i1 (some cm)) ai = none)
    (hterm : minimaxFuel f ((b.set i1 (some cm)).set i2 (some cm)) ai (flipMark ai) =
      some (-10, none)) :
    ∃ mv, minimaxFuel (f + 2) b ai cm = some (-10, mv) := by
  have hne : cm ≠ ai := hcm ▸ flipMark_ne ai
  have hchild_len : (emptyCells (b.set i1 (some cm))).length < f + 1 := by
    have hdec := length_emptyCells_set cm hi1
    omega
  obtain ⟨⟨s1, mv1⟩, hc⟩ := Option.isSome_iff_exists.mp
    (minimaxFuel_isSome (f + 1) (b.set i1 (some cm)) ai cm hchild_len)
  have hb1 := (minimaxFuel_bounds (f + 1) _ ai cm s1 mv1 hc).1
  have hterm2 : minimaxFuel f ((b.set i1 (some cm)).set i2 (some cm)) ai
      (flipMark ai) = some (-10, none) := hterm
  have hle1 : s1 ≤ -10 := minimaxFuel_min_le hne ht1 hc hi2 hterm2
  have hs1 : s1 = -10 := le_antisymm hle1 hb1
  obtain ⟨⟨s0, mv0⟩, h0⟩ := Option.isSome_iff_exists.mp
    (minimaxFuel_isSome (f + 2) b ai cm hfuel)
  have hb0 := (minimaxFuel_bounds (f + 2) b ai cm s0 mv0 h0).1
  have hc2 : minimaxFuel (f + 1) (b.set i1 (some cm)) ai (flipMark ai) =
      some (s1, mv1) := by
    rw [← hcm]
    exact hc
  have hle0 : s0 ≤ s1 := minimaxFuel_min_le hne ht0 h0 hi1 hc2
  have hs0 : s0 = -10 := le_antisymm (hs1 ▸ hle0) hb0
  exact ⟨mv0, hs0 ▸ h0⟩

theorem collectScores_nil {recur : List Cell → Option (Int × Option Nat)}
    {board : List Cell} {mark : Mark} :
    collectScores recur board mark [] = some [] := rfl

theorem collectScores_cons {recur : List Cell → Option (Int × Option Nat)}
    {board : List Cell} {mark : Mark} {idx : Nat} {rest : List Nat}
    {r : Int × Option Nat} {rs : List (Nat × Int)}
    (h1 : recur (board.set idx (some mark)) = some r)
    (h2 : collectScores recur board mark rest = some rs) :
    collectScores recur board mark (idx :: rest) = some ((idx, r.1) :: rs) := by
  rw [collectScores, h1, h2]

/-- Symbolic evaluation of one maximising minimax node from the values of
its parts. -/
theorem minimaxFuel_max_eval {f : Nat} {b : List Cell} {ai : Mark}
    (hterm0 : terminalScore b ai = none)
    {cands : List (Nat × Int)}
    (hcoll : collectScores (fun bd => minimaxFuel f bd ai (flipMark ai)) b ai
      (emptyCells b) = some cands)
    {s : Int} {om : Option Nat} (hbf : bestFoldMax cands = (some s, om))
    (hav : ¬ (emptyCells b).length = 0) :
    minimaxFuel (f + 1) b ai ai = some (s, om) := by
  rw [minimaxFuel, hterm0]
  dsimp only
  rw [if_neg hav, hcoll]
  dsimp only
  rw [if_pos rfl, hbf]

/-- Symbolic evaluation of one minimising minimax node from the values of
its parts. -/
theorem minimaxFuel_min_eval {f : Nat} {b : List Cell} {ai cm : Mark}
    (hne : cm ≠ ai) (hterm0 : terminalScore b ai = none)
    {cands : List (Nat × Int)}
    (hcoll : collectScores (fun bd => minimaxFuel f bd ai (flipMark ai)) b cm
      (emptyCells b) = some cands)
    {s : Int} {om : Option Nat} (hbf : bestFoldMin cands = (some s, om))
    (hav : ¬ (emptyCells b).length = 0) :
    minimaxFuel (f + 1) b ai cm = some (s, om) := by
  rw [minimaxFuel, hterm0]
  dsimp only
  rw [if_neg hav, hcoll]
  dsimp only
  rw [if_neg hne, hbf]

/-- The second component of the wrapper `minimax` from a fuelled value. -/
theorem minimax_snd {board : List Cell} {ai cm : Mark} {s : Int} {mv : Option Nat}
    (h : minimaxFuel ((emptyCells board).length + 1) board ai cm = some (s, mv)) :
    (minimax board ai cm).2 = mv := by
  rw [minimax, h]
  rfl

/-- Running the optimal branch of `getAIMove` from a computed minimax move. -/
theorem getAIMove_optimal_run {board : List Cell} {a : String} {r : Nat}
    (h9 : board.length = 9) (ha : a = ("X") ∨ a = ("O"))
    (hw : calculateWinner board = none) (hnd : isDraw board = false)
    {i : Nat}
    (hmv : (minimax board (if a = ("X") then Mark.X else Mark.O)
      (if (board.filter (fun c => c.isSome)).length % 2 = 0 then Mark.X
        else Mark.O)).2 = some i) :
    getAIMove board a ("optimal") r = Except.ok i := by
  have hna : ¬(a ≠ ("X") ∧ a ≠ ("O")) := by rcases ha with h | h <;> simp [h]
  have hdif : ¬(("optimal" : String) ≠ ("random") ∧ ("optimal" : String) ≠ ("optimal")) := by
    simp
  have hnover : ¬((calculateWinner board).isSome = true ∨ isDraw board = true) := by
    simp [hw, hnd]
  have hlen : ¬((emptyCells board).length = 0) := by
    have hne := emptyCells_ne_nil_of_in_progress hw hnd
    simpa [List.length_eq_zero] using hne
  rw [getAIMove, if_neg (fun hc => hc h9), if_neg hna, if_neg hdif, if_neg hnover,
    if_neg hlen, if_neg (by simp : ¬ (("optimal" : String) = ("random"))), hmv]

/-- The board after `X`'s opening move at 0 — the position of the first
`getAIMove` call of the losing game exhibited for the never-loses claim. -/
def c4board : List Cell :=
  [some Mark.X, none, none, none, none, none, none, none, none]

/-- With `O` placed at 1, the all-`X` continuation `4, 8` completes the
`(0,4,8)` diagonal, so the minimising child node scores `-10`. -/
theorem c4_child1 : ∃ mv,
    minimaxFuel 8 (c4board.set 1 (some Mark.O)) Mark.O (flipMark Mark.O) =
      some (-10, mv) :=
  @minimaxFuel_forced_loss 6 (c4board.set 1 (some Mark.O)) Mark.O (flipMark Mark.O)
    rfl 4 8 (by decide) (by decide) (by decide) (by decide) (by decide) (by decide)

/-- `O` at 2: `X` continues `3, 6` and completes column `(0,3,6)`. -/
theorem c4_child2 : ∃ mv,
    minimaxFuel 8 (c4board.set 2 (some Mark.O)) Mark.O (flipMark Mark.O) =
      some (-10, mv) :=
  @minimaxFuel_forced_loss 6 (c4board.set 2 (some Mark.O)) Mark.O (flipMark Mark.O)
    rfl 3 6 (by decide) (by decide) (by decide) (by decide) (by decide) (by decide)

/-- `O` at 3: `X` continues `4, 8` on the `(0,4,8)` diagonal. -/
theorem c4_child3 : ∃ mv,
    minimaxFuel 8 (c4board.set 3 (some Mark.O)) Mark.O (flipMark Mark.O) =
      some (-10, mv) :=
  @minimaxFuel_forced_loss 6 (c4board.set 3 (some Mark.O)) Mark.O (flipMark Mark.O)
    rfl 4 8 (by decide) (by decide) (by decide) (by decide) (by decide) (by decide)

/-- `O` at 4: `X` continues `1, 2` and completes row `(0,1,2)`. -/
theorem c4_child4 : ∃ mv,
    minimaxFuel 8 (c4board.set 4 (some Mark.O)) Mark.O (flipMark Mark.O) =
      some (-10, mv) :=
  @minimaxFuel_forced_loss 6 (c4board.set 4 (some Mark.O)) Mark.O (flipMark Mark.O)
    rfl 1 2 (by decide) (by decide) (by decide) (by decide) (by decide) (by decide)

/-- `O` at 5: `X` continues `4, 8` on the `(0,4,8)` diagonal. -/
theorem c4_child5 : ∃ mv,
    minimaxFuel 8 (c4board.set 5 (some Mark.O)) Mark.O (flipMark Mark.O) =
      some (-10, mv) :=
  @minimaxFuel_forced_loss 6 (c4board.set 5 (some Mark.O)) Mark.O (flipMark Mark.O)
    rfl 4 8 (by decide) (by decide) (by decide) (by decide) (by decide) (by decide)

/-- `O` at 6: `X` continues `4, 8` on the `(0,4,8)` diagonal. -/
theorem c4_child6 : ∃ mv,
    minimaxFuel 8 (c4board.set 6 (some Mark.O)) Mark.O (flipMark Mark.O) =
      some (-10, mv) :=
  @minimaxFuel_forced_loss 6 (c4board.set 6 (some Mark.O)) Mark.O (flipMark Mark.O)
    rfl 4 8 (by decide) (by decide) (by decide) (by decide) (by decide) (by decide)

/-- `O` at 7: `X` continues `4, 8` on the `(0,4,8)` diagonal. -/
theorem c4_child7 : ∃ mv,
    minimaxFuel 8 (c4board.set 7 (some Mark.O)) Mark.O (flipMark Mark.O) =
      some (-10, mv) :=
  @minimaxFuel_forced_loss 6 (c4board.set 7 (some Mark.O)) Mark.O (flipMark Mark.O)
    rfl 4 8 (by decide) (by decide) (by decide) (by decide) (by decide) (by decide)

/-- `O` at 8: `X` continues `3, 6` and completes column `(0,3,6)`. -/
theorem c4_child8 : ∃ mv,
    minimaxFuel 8 (c4board.set 8 (some Mark.O)) Mark.O (flipMark Mark.O) =
      some (-10, mv) :=
  @minimaxFuel_forced_loss 6 (c4board.set 8 (some Mark.O)) Mark.O (flipMark Mark.O)
    rfl 3 6 (by decide) (by decide) (by decide) (by decide) (by decide) (by decide)

set_option maxHeartbeats 2000000

/-- Every reply on `c4board` scores `-10` in the buggy all-opponent
simulation, so the maximising root keeps the first empty index, 1. -/
theorem c4_root_eval : minimaxFuel 9 c4board Mark.O Mark.O = some (-10, some 1) := by
  obtain ⟨m1, h1⟩ := c4_child1
  obtain ⟨m2, h2⟩ := c4_child2
  obtain ⟨m3, h3⟩ := c4_child3
  obtain ⟨m4, h4⟩ := c4_child4
  obtain ⟨m5, h5⟩ := c4_child5
  obtain ⟨m6, h6⟩ := c4_child6
  obtain ⟨m7, h7⟩ := c4_child7
  obtain ⟨m8, h8⟩ := c4_child8
  have t8 : collectScores (fun bd => minimaxFuel 8 bd Mark.O (flipMark Mark.O))
      c4board Mark.O [8] =
      some [(8, -10)] :=
    collectScores_cons h8 collectScores_nil
  have t7 : collectScores (fun bd => minimaxFuel 8 bd Mark.O (flipMark Mark.O))
      c4board Mark.O [7, 8] =
      some [(7, -10), (8, -10)] :=
    collectScores_cons h7 t8
  have t6 : collectScores (fun bd => minimaxFuel 8 bd Mark.O (flipMark Mark.O))
      c4board Mark.O [6, 7, 8] =
      some [(6, -10), (7, -10), (8, -10)] :=
    collectScores_cons h6 t7
  have t5 : collectScores (fun bd => minimaxFuel 8 bd Mark.O (flipMark Mark.O))
      c4board Mark.O [5, 6, 7, 8] =
      some [(5, -10), (6, -10), (7, -10), (8, -10)] :=
    collectScores_cons h5 t6
  have t4 : collectScores (fun bd => minimaxFuel 8 bd Mark.O (flipMark Mark.O))
      c4board Mark.O [4, 5, 6, 7, 8] =
      some [(4, -10), (5, -10), (6, -10), (7, -10), (8, -10)] :=
    collectScores_cons h4 t5
  have t3 : collectScores (fun bd => minimaxFuel 8 bd Mark.O (flipMark Mark.O))
      c4board Mark.O [3, 4, 5, 6, 7, 8] =
      some [(3, -10), (4, -10), (5, -10), (6, -10), (7, -10), (8, -10)] :=
    collectScores_cons h3 t4
  have t2 : collectScores (fun bd => minimaxFuel 8 bd Mark.O (flipMark Mark.O))
      c4board Mark.O [2, 3, 4, 5, 6, 7, 8] =
      some [(2, -10), (3, -10), (4, -10), (5, -10), (6, -10), (7, -10), (8, -10)] :=
    collectScores_cons h2 t3
  have t1 : collectScores (fun bd => minimaxFuel 8 bd Mark.O (flipMark Mark.O))
      c4board Mark.O [1, 2, 3, 4, 5, 6, 7, 8] =
      some [(1, -10), (2, -10), (3, -10), (4, -10), (5, -10), (6, -10), (7, -10), (8, -10)] :=
    collectScores_cons h1 t2
  have hec : emptyCells c4board = [1, 2, 3, 4, 5, 6, 7, 8] := by decide
  have hcoll : collectScores (fun bd => minimaxFuel 8 bd Mark.O (flipMark Mark.O))
      c4board Mark.O (emptyCells c4board) =
      some [(1, -10), (2, -10), (3, -10), (4, -10), (5, -10), (6, -10), (7, -10),
        (8, -10)] := by
    rw [hec]
    exact t1
  exact minimaxFuel_max_eval (by decide) hcoll (by decide) (by decide)

/-- The first `getAIMove` call of the losing game: on `c4board` the optimal
selector for `O` plays index 1. -/
theorem c4_first_move : getAIMove c4board ("O") ("optimal") 0 = Except.ok 1 :=
  getAIMove_optimal_run (by decide) (Or.inr rfl) (by decide) (by decide)
    (minimax_snd c4_root_eval)

set_option maxHeartbeats 200000

theorem minimaxFuel_forced_loss_one {f : Nat} {b : List Cell} {ai cm : Mark}
    (hcm : cm = flipMark ai) {i1 : Nat} (hi1 : i1 ∈ emptyCells b)
    (hfuel : (emptyCells b).length < f + 1)
    (ht0 : terminalScore b ai = none)
    (hterm : minimaxFuel f (b.set i1 (some cm)) ai (flipMark ai) = some (-10, none)) :
    ∃ mv, minimaxFuel (f + 1) b ai cm = some (-10, mv) := by
  have hne : cm ≠ ai := hcm ▸ flipMark_ne ai
  obtain ⟨⟨s0, mv0⟩, h0⟩ := Option.isSome_iff_exists.mp
    (minimaxFuel_isSome (f + 1) b ai cm hfuel)
  have hb0 := (minimaxFuel_bounds (f + 1) b ai cm s0 mv0 h0).1
  have hle0 : s0 ≤ -10 := minimaxFuel_min_le hne ht0 h0 hi1 hterm
  have hs0 : s0 = -10 := le_antisymm hle0 hb0
  exact ⟨mv0, hs0 ▸ h0⟩

/-- The board of the losing game's second `getAIMove` call:
`X` at 0 and 4, `O` at 1. -/
def c4board2 : List Cell :=
  [some Mark.X, some Mark.O, none, none, some Mark.X, none, none, none, none]

/-- On `c4board2` with `O` placed anywhere but 8, the single `X` move 8
completes `(0,4,8)`, so those minimising children all score `-10`. -/
theorem c4b2_child_ne8 : ∀ idx ∈ ([2, 3, 5, 6, 7] : List Nat),
    ∃ mv, minimaxFuel 6 (c4board2.set idx (some Mark.O)) Mark.O (flipMark Mark.O) =
      some (-10, mv) := by
  intro idx hidx
  fin_cases hidx
  · exact @minimaxFuel_forced_loss_one 5 (c4board2.set 2 (some Mark.O)) Mark.O
      (flipMark Mark.O) rfl 8 (by decide) (by decide) (by decide) (by decide)
  · exact @minimaxFuel_forced_loss_one 5 (c4board2.set 3 (some Mark.O)) Mark.O
      (flipMark Mark.O) rfl 8 (by decide) (by decide) (by decide) (by decide)
  · exact @minimaxFuel_forced_loss_one 5 (c4board2.set 5 (some Mark.O)) Mark.O
      (flipMark Mark.O) rfl 8 (by decide) (by decide) (by decide) (by decide)
  · exact @minimaxFuel_forced_loss_one 5 (c4board2.set 6 (some Mark.O)) Mark.O
      (flipMark Mark.O) rfl 8 (by decide) (by decide) (by decide) (by decide)
  · exact @minimaxFuel_forced_loss_one 5 (c4board2.set 7 (some Mark.O)) Mark.O
      (flipMark Mark.O) rfl 8 (by decide) (by decide) (by decide) (by decide)

/-- With `O` at 8 blocking the diagonal, `X` needs the two moves `3, 5` to
complete `(3,4,5)`; that child also scores `-10`. -/
theorem c4b2_child8 : ∃ mv,
    minimaxFuel 6 (c4board2.set 8 (some Mark.O)) Mark.O (flipMark Mark.O) =
      some (-10, mv) :=
  @minimaxFuel_forced_loss 4 (c4board2.set 8 (some Mark.O)) Mark.O (flipMark Mark.O)
    rfl 3 5 (by decide) (by decide) (by decide) (by decide) (by decide) (by decide)

set_option maxHeartbeats 2000000

/-- Every reply on `c4board2` scores `-10`, so the maximising root keeps
the first empty index, 2. -/
theorem c4b2_root_eval : minimaxFuel 7 c4board2 Mark.O Mark.O = some (-10, some 2) := by
  obtain ⟨m2, h2⟩ := c4b2_child_ne8 2 (by decide)
  obtain ⟨m3, h3⟩ := c4b2_child_ne8 3 (by decide)
  obtain ⟨m5, h5⟩ := c4b2_child_ne8 5 (by decide)
  obtain ⟨m6, h6⟩ := c4b2_child_ne8 6 (by decide)
  obtain ⟨m7, h7⟩ := c4b2_child_ne8 7 (by decide)
  obtain ⟨m8, h8⟩ := c4b2_child8
  have t8 : collectScores (fun bd => minimaxFuel 6 bd Mark.O (flipMark Mark.O))
      c4board2 Mark.O [8] =
      some [(8, -10)] :=
    collectScores_cons h8 collectScores_nil
  have t7 : collectScores (fun bd => minimaxFuel 6 bd Mark.O (flipMark Mark.O))
      c4board2 Mark.O [7, 8] =
      some [(7, -10), (8, -10)] :=
    collectScores_cons h7 t8
  have t6 : collectScores (fun bd => minimaxFuel 6 bd Mark.O (flipMark Mark.O))
      c4board2 Mark.O [6, 7, 8] =
      some [(6, -10), (7, -10), (8, -10)] :=
    collectScores_cons h6 t7
  have t5 : collectScores (fun bd => minimaxFuel 6 bd Mark.O (flipMark Mark.O))
      c4board2 Mark.O [5, 6, 7, 8] =
      some [(5, -10), (6, -10), (7, -10), (8, -10)] :=
    collectScores_cons h5 t6
  have t3 : collectScores (fun bd => minimaxFuel 6 bd Mark.O (flipMark Mark.O))
      c4board2 Mark.O [3, 5, 6, 7, 8] =
      some [(3, -10), (5, -10), (6, -10), (7, -10), (8, -10)] :=
    collectScores_cons h3 t5
  have t2 : collectScores (fun bd => minimaxFuel 6 bd Mark.O (flipMark Mark.O))
      c4board2 Mark.O [2, 3, 5, 6, 7, 8] =
      some [(2, -10), (3, -10), (5, -10), (6, -10), (7, -10), (8, -10)] :=
    collectScores_cons h2 t3
  have hec : emptyCells c4board2 = [2, 3, 5, 6, 7, 8] := by decide
  have hcoll : collectScores (fun bd => minimaxFuel 6 bd Mark.O (flipMark Mark.O))
      c4board2 Mark.O (emptyCells c4board2) =
      some [(2, -10), (3, -10), (5, -10), (6, -10), (7, -10), (8, -10)] := by
    rw [hec]
    exact t2
  exact minimaxFuel_max_eval (by decide) hcoll (by decide) (by decide)

/-- The second `getAIMove` call of the losing game: on `c4board2` the
optimal selector for `O` plays index 2. -/
theorem c4_second_move : getAIMove c4board2 ("O") ("optimal") 0 = Except.ok 2 :=
  getAIMove_optimal_run (by decide) (Or.inr rfl) (by decide) (by decide)
    (minimax_snd c4b2_root_eval)

/-- The board of Scenario C: `O` at 0 and 1, `X` at 3 and 4. -/
def c6board : List Cell :=
  [some Mark.O, some Mark.O, none, some Mark.X, some Mark.X, none, none, none, none]

/-- Scenario C child at 5: placing the derived mover `X` at 5 completes
the row `(3,4,5)`, a terminal loss for `aiMark = O`. -/
theorem c6_child5 :
    minimaxFuel 5 (c6board.set 5 (some Mark.X)) Mark.O (flipMark Mark.O) =
      some (-10, none) := by decide

/-- Scenario C other children: after `X` at another empty cell, the reply
`X` at 5 still completes `(3,4,5)`, so every child scores `-10`. -/
theorem c6_child_other : ∀ idx ∈ ([2, 6, 7, 8] : List Nat),
    ∃ mv, minimaxFuel 5 (c6board.set idx (some Mark.X)) Mark.O (flipMark Mark.O) =
      some (-10, mv) := by
  intro idx hidx
  fin_cases hidx
  · exact @minimaxFuel_forced_loss_one 4 (c6board.set 2 (some Mark.X)) Mark.O
      (flipMark Mark.O) rfl 5 (by decide) (by decide) (by decide) (by decide)
  · exact @minimaxFuel_forced_loss_one 4 (c6board.set 6 (some Mark.X)) Mark.O
      (flipMark Mark.O) rfl 5 (by decide) (by decide) (by decide) (by decide)
  · exact @minimaxFuel_forced_loss_one 4 (c6board.set 7 (some Mark.X)) Mark.O
      (flipMark Mark.O) rfl 5 (by decide) (by decide) (by decide) (by decide)
  · exact @minimaxFuel_forced_loss_one 4 (c6board.set 8 (some Mark.X)) Mark.O
      (flipMark Mark.O) rfl 5 (by decide) (by decide) (by decide) (by decide)

/-- Every candidate on `c6board` scores `-10`, so the minimising root
(the derived mover `X` differs from `aiMark = O`) keeps the first
enumerated empty index, 2. -/
theorem c6_root_eval : minimaxFuel 6 c6board Mark.O Mark.X = some (-10, some 2) := by
  obtain ⟨m2, h2⟩ := c6_child_other 2 (by decide)
  have h5 := c6_child5
  obtain ⟨m6, h6⟩ := c6_child_other 6 (by decide)
  obtain ⟨m7, h7⟩ := c6_child_other 7 (by decide)
  obtain ⟨m8, h8⟩ := c6_child_other 8 (by decide)
  have t8 : collectScores (fun bd => minimaxFuel 5 bd Mark.O (flipMark Mark.O))
      c6board Mark.X [8] =
      some [(8, -10)] :=
    collectScores_cons h8 collectScores_nil
  have t7 : collectScores (fun bd => minimaxFuel 5 bd Mark.O (flipMark Mark.O))
      c6board Mark.X [7, 8] =
      some [(7, -10), (8, -10)] :=
    collectScores_cons h7 t8
  have t6 : collectScores (fun bd => minimaxFuel 5 bd Mark.O (flipMark Mark.O))
      c6board Mark.X [6, 7, 8] =
      some [(6, -10), (7, -10), (8, -10)] :=
    collectScores_cons h6 t7
  have t5 : collectScores (fun bd => minimaxFuel 5 bd Mark.O (flipMark Mark.O))
      c6board Mark.X [5, 6, 7, 8] =
      some [(5, -10), (6, -10), (7, -10), (8, -10)] :=
    collectScores_cons h5 t6
  have t2 : collectScores (fun bd => minimaxFuel 5 bd Mark.O (flipMark Mark.O))
      c6board Mark.X [2, 5, 6, 7, 8] =
      some [(2, -10), (5, -10), (6, -10), (7, -10), (8, -10)] :=
    collectScores_cons h2 t5
  have hec : emptyCells c6board = [2, 5, 6, 7, 8] := by decide
  have hcoll : collectScores (fun bd => minimaxFuel 5 bd Mark.O (flipMark Mark.O))
      c6board Mark.X (emptyCells c6board) =
      some [(2, -10), (5, -10), (6, -10), (7, -10), (8, -10)] := by
    rw [hec]
    exact t2
  exact minimaxFuel_min_eval (by decide) (by decide) hcoll (by decide) (by decide)

/-- Scenario C's `getAIMove` call: on `c6board` with `aiMark = O` the
optimal selector returns index 2. -/
theorem c6_move : getAIMove c6board ("O") ("optimal") 0 = Except.ok 2 :=
  getAIMove_optimal_run (by decide) (Or.inr rfl) (by decide) (by decide)
    (minimax_snd c6_root_eval)

set_option maxHeartbeats 200000
/-! ## Claim theorems -/

/-- **C1** (counterexample): on the length-9 empty board and the non-integer
index `5/2`, `validateMove` does not report `Invalid index` (the spec's
`InvalidIndex`) as the claim demands for a non-integer index; it falls
through the range test (`0 ≤ 5/2 ≤ 8`) and reports `Cell occupied` because
`board[2.5]` is `undefined`, which differs from `null`. -/
theorem c1_counterexample :
    validateMove initBoard idx52 = ⟨false, some ("Cell occupied")⟩ ∧
    idx52.den ≠ 1 ∧ 0 ≤ idx52 ∧ idx52 ≤ 8 ∧ initBoard.length = 9 ∧
    (validateMove initBoard idx52).reason ≠ some ("Invalid index") := by
  decide

/-- **C1** (amended): `validateMove(B, i).valid = true` iff `B` has length 9
and `i` is an integer with `0 ≤ i ≤ 8` whose cell is Empty; the failure
reason is `Invalid board` when the length is not 9, otherwise
`Invalid index` when `i` is out of the numeric range `[0, 8]` (integrality
is NOT tested), otherwise `Cell occupied` when the JS lookup `board[i]`
is not `null` — which is also the answer for an in-range non-integer `i`. -/
theorem c1_validateMove_spec :
    ∀ (board : List Cell) (index : Rat),
      ((validateMove board index).valid = true ↔
        board.length = 9 ∧ index.den = 1 ∧ 0 ≤ index ∧ index ≤ 8 ∧
          board.get? index.num.toNat = some (none : Cell)) ∧
      (board.length ≠ 9 → (validateMove board index).reason = some ("Invalid board")) ∧
      (board.length = 9 → (index < 0 ∨ 8 < index) →
        (validateMove board index).reason = some ("Invalid index")) ∧
      (board.length = 9 → 0 ≤ index → index ≤ 8 →
        jsIndexGet board index ≠ some (none : Cell) →
        (validateMove board index).reason = some ("Cell occupied")) := by
  intro board index
  refine ⟨?_, ?_, ?_, ?_⟩
  · rw [validateMove]
    split_ifs with h1 h2 h3
    · simp [h1]
    · rcases h2 with h | h <;> simp [not_le.mpr h]
    · constructor
      · intro hfalse
        exact absurd hfalse (by simp)
      · rintro ⟨h9, hden, hpos, hle, hcell⟩
        exact absurd (by rw [jsIndexGet, if_pos ⟨hpos, hden⟩]; exact hcell) h3
    · push_neg at h2 h3
      have hcond : 0 ≤ index ∧ index.den = 1 := by
        by_contra hc
        rw [jsIndexGet, if_neg hc] at h3
        exact Option.noConfusion h3
      rw [jsIndexGet, if_pos hcond] at h3
      exact iff_of_true rfl ⟨not_ne_iff.mp h1, hcond.2, hcond.1, h2.2, h3⟩
  · intro h1
    rw [validateMove, if_pos h1]
  · intro h9 hrange
    rw [validateMove, if_neg (fun hc => hc h9), if_pos hrange]
  · intro h9 hpos hle hocc
    rw [validateMove, if_neg (fun hc => hc h9),
      if_neg (by push_neg; exact ⟨hpos, hle⟩), if_pos hocc]

/-- **C1** witness: the amended theorem applied at the empty board and the
integer index `4`. -/
theorem c1_witness :
    ((validateMove initBoard 4).valid = true ↔
      initBoard.length = 9 ∧ (4 : Rat).den = 1 ∧ 0 ≤ (4 : Rat) ∧ (4 : Rat) ≤ 8 ∧
        initBoard.get? (4 : Rat).num.toNat = some (none : Cell)) ∧
    (validateMove initBoard 4).valid = true :=
  ⟨(c1_validateMove_spec initBoard 4).1, by decide⟩

/-- **C7**: `calculateWinner` inspects exactly the eight fixed lines, in the
order three rows, three columns, diagonal `(0,4,8)`, diagonal `(2,4,6)`;
it returns the mark of the first fully matched line in that enumeration,
and `none` when no line is fully matched. -/
theorem c7_calculateWinner_first_line :
    winLines = [(0, 1, 2), (3, 4, 5), (6, 7, 8), (0, 3, 6), (1, 4, 7), (2, 5, 8),
      (0, 4, 8), (2, 4, 6)] ∧
    (∀ board : List Cell,
      (calculateWinner board = none ↔ ∀ l ∈ winLines, lineWinner board l = none)) ∧
    (∀ (board : List Cell) (m : Mark),
      calculateWinner board = some m ↔
        ∃ l₁ ln l₂, winLines = l₁ ++ ln :: l₂ ∧ lineWinner board ln = some m ∧
          ∀ l ∈ l₁, lineWinner board l = none) := by
  refine ⟨rfl, fun board => findSome_eq_none_iff _ _, fun board m => ⟨?_, ?_⟩⟩
  · intro h
    exact findSome_eq_some_split _ _ _ h
  · rintro ⟨l₁, ln, l₂, hsplit, hfa, hnone⟩
    rw [calculateWinner, hsplit]
    exact findSome_of_split _ _ _ _ _ hfa hnone

/-- **C8**: the `NoLegalMoves` branch of `getAIMove` is unreachable —
no input at all makes `getAIMove` produce the error
`getAIMove: No available moves`, and on every length-9 board that is
neither won nor drawn at least one cell is Empty. -/
theorem c8_noLegalMoves_unreachable :
    (∀ (board : List Cell) (aiMark difficulty : String) (rand : Nat),
      getAIMove board aiMark difficulty rand ≠
        Except.error ("getAIMove: No available moves")) ∧
    (∀ board : List Cell, board.length = 9 → calculateWinner board = none →
      isDraw board = false → emptyCells board ≠ []) := by
  constructor
  · intro board a d r
    by_cases h9 : board.length = 9
    · by_cases ha : a = ("X") ∨ a = ("O")
      · by_cases hd : d = ("random") ∨ d = ("optimal")
        · by_cases hover : (calculateWinner board).isSome = true ∨ isDraw board = true
          · rw [getAIMove_game_over h9 ha hd hover]
            simp
          · push_neg at hover
            have hw : calculateWinner board = none :=
              Option.not_isSome_iff_eq_none.mp (by simp [hover.1])
            have hnd : isDraw board = false := by
              cases hdb : isDraw board
              · rfl
              · exact absurd hdb hover.2
            obtain ⟨i, hi⟩ := getAIMove_ok (a := a) (d := d) (r := r) h9 ha hd hw hnd
            rw [hi]
            simp
        · push_neg at hd
          rw [getAIMove_invalid_difficulty h9 ha hd.1 hd.2]
          simp
      · push_neg at ha
        rw [getAIMove_invalid_mark h9 ha.1 ha.2]
        simp
    · rw [getAIMove_invalid_board h9]
      simp
  · intro board _ hw hnd
    exact emptyCells_ne_nil_of_in_progress hw hnd

/-- **C8** witness: the first conjunct at a concrete already-won board and
the second conjunct at a concrete in-progress board. -/
theorem c8_witness :
    getAIMove [some Mark.X, some Mark.X, some Mark.X, none, none, none, none, none, none]
        ("O") ("random") 0 ≠ Except.error ("getAIMove: No available moves") ∧
    emptyCells [some Mark.X, none, none, none, some Mark.O, none, none, none, none] ≠ [] :=
  ⟨c8_noLegalMoves_unreachable.1 _ _ _ 0,
    c8_noLegalMoves_unreachable.2 _ (by decide) (by decide) (by decide)⟩

/-- **C10** (counterexample): `isDraw` is NOT true for every array without
an Empty cell — the length-3 array `[X, X, X]` contains no Empty cell yet
`isDraw` returns `false`, because the row `(0,1,2)` is a complete line and
`isDraw` also requires the winner scan to fail. -/
theorem c10_counterexample :
    (([some Mark.X, some Mark.X, some Mark.X] : List Cell).all
      (fun c => c.isSome) = true) ∧
    isDraw [some Mark.X, some Mark.X, some Mark.X] = false := by
  decide

/-- **C10** (amended): `calculateWinner` and `isDraw` perform no length
validation and are total on arrays of any length: `calculateWinner` is
`none` on any board (in particular shorter than 9) in which no line is
fully matched, `isDraw` is true on any winner-free array without Empty
cells regardless of length, and on the zero-length array `calculateWinner`
is `none` and `isDraw` is `true`. -/
theorem c10_no_length_validation :
    (∀ board : List Cell, board.length < 9 →
      (∀ l ∈ winLines, lineWinner board l = none) → calculateWinner board = none) ∧
    (∀ board : List Cell, calculateWinner board = none →
      board.all (fun c => c.isSome) = true → isDraw board = true) ∧
    isDraw ([] : List Cell) = true ∧ calculateWinner ([] : List Cell) = none := by
  refine ⟨?_, ?_, by decide, by decide⟩
  · intro board _ hnone
    exact (findSome_eq_none_iff (lineWinner board) winLines).mpr hnone
  · intro board hw hall
    rw [isDraw, hw, hall]
    rfl

/-- **C10** witness: the amended theorem applied at the length-1 board
`[X]` (no complete line) and at the full winner-free length-2 board
`[X, O]`. -/
theorem c10_witness :
    calculateWinner [some Mark.X] = none ∧ isDraw [some Mark.X, some Mark.O] = true :=
  ⟨c10_no_length_validation.1 [some Mark.X] (by decide) (by decide),
    c10_no_length_validation.2.1 [some Mark.X, some Mark.O] (by decide) (by decide)⟩

/-- **C2**: `getAIMove` fails exactly when the board is not length 9
(`Invalid board`), the mark is neither `X` nor `O` (`Invalid aiMark`), the
difficulty is neither `random` nor `optimal` (`Invalid difficulty`), or the
game is over (`Game is already over`), with that precedence; on every
length-9 non-terminal board with valid mark and difficulty it returns an
index without failing. -/
theorem c2_getAIMove_errors :
    ∀ (board : List Cell) (aiMark difficulty : String) (rand : Nat),
      ((∃ e, getAIMove board aiMark difficulty rand = Except.error e) ↔
        (board.length ≠ 9 ∨ (aiMark ≠ ("X") ∧ aiMark ≠ ("O")) ∨
          (difficulty ≠ ("random") ∧ difficulty ≠ ("optimal")) ∨
          calculateWinner board ≠ none ∨ isDraw board = true)) ∧
      (board.length ≠ 9 →
        getAIMove board aiMark difficulty rand =
          Except.error ("getAIMove: Invalid board")) ∧
      (board.length = 9 → aiMark ≠ ("X") → aiMark ≠ ("O") →
        getAIMove board aiMark difficulty rand =
          Except.error ("getAIMove: Invalid aiMark")) ∧
      (board.length = 9 → (aiMark = ("X") ∨ aiMark = ("O")) →
        difficulty ≠ ("random") → difficulty ≠ ("optimal") →
        getAIMove board aiMark difficulty rand =
          Except.error ("getAIMove: Invalid difficulty")) ∧
      (board.length = 9 → (aiMark = ("X") ∨ aiMark = ("O")) →
        (difficulty = ("random") ∨ difficulty = ("optimal")) →
        (calculateWinner board ≠ none ∨ isDraw board = true) →
        getAIMove board aiMark difficulty rand =
          Except.error ("getAIMove: Game is already over")) := by
  intro board a d r
  refine ⟨⟨?_, ?_⟩, getAIMove_invalid_board, getAIMove_invalid_mark,
    getAIMove_invalid_difficulty,
    fun h9 ha hd hov =>
      getAIMove_game_over h9 ha hd
        (hov.imp (fun h => Option.isSome_iff_ne_none.mpr h) id)⟩
  · rintro ⟨e, he⟩
    by_contra hno
    push_neg at hno
    obtain ⟨h9, hB, hC, hw, hd⟩ := hno
    have ha : a = ("X") ∨ a = ("O") := by
      by_cases hx : a = ("X")
      · exact Or.inl hx
      · exact Or.inr (hB hx)
    have hdd : d = ("random") ∨ d = ("optimal") := by
      by_cases hr : d = ("random")
      · exact Or.inl hr
      · exact Or.inr (hC hr)
    have hdraw : isDraw board = false := by
      cases hdb : isDraw board
      · rfl
      · exact absurd hdb hd
    obtain ⟨i, hi⟩ := getAIMove_ok (a := a) (d := d) (r := r) h9 ha hdd hw hdraw
    rw [hi] at he
    exact Except.noConfusion he
  · intro hrhs
    by_cases h9 : board.length = 9
    · by_cases ha : a = ("X") ∨ a = ("O")
      · by_cases hd : d = ("random") ∨ d = ("optimal")
        · have hover : (calculateWinner board).isSome = true ∨ isDraw board = true := by
            rcases hrhs with h | h | h | h | h
            · exact absurd h9 h
            · rcases ha with hx | ho
              · exact absurd hx h.1
              · exact absurd ho h.2
            · rcases hd with h1 | h2
              · exact absurd h1 h.1
              · exact absurd h2 h.2
            · exact Or.inl (Option.isSome_iff_ne_none.mpr h)
            · exact Or.inr h
          exact ⟨_, getAIMove_game_over h9 ha hd hover⟩
        · push_neg at hd
          exact ⟨_, getAIMove_invalid_difficulty h9 ha hd.1 hd.2⟩
      · push_neg at ha
        exact ⟨_, getAIMove_invalid_mark h9 ha.1 ha.2⟩
    · exact ⟨_, getAIMove_invalid_board h9⟩

/-- **C2** witness: the characterisation applied at the empty array (board
of length 0), which must fail with `Invalid board`. -/
theorem c2_witness :
    ([] : List Cell).length ≠ 9 ∧
    getAIMove ([] : List Cell) ("X") ("random") 0 =
      Except.error ("getAIMove: Invalid board") :=
  ⟨by decide, (c2_getAIMove_errors [] ("X") ("random") 0).2.1 (by decide)⟩

/-- **C3**: whenever `getAIMove` returns an index — under either difficulty
— the cell at that index in the input board is Empty. -/
theorem c3_returned_index_is_empty :
    ∀ (board : List Cell) (aiMark difficulty : String) (rand : Nat) (i : Nat),
      getAIMove board aiMark difficulty rand = Except.ok i →
      board.get? i = some (none : Cell) := by
  intro board a d r i h
  rw [getAIMove] at h
  by_cases h1 : board.length ≠ 9
  · rw [if_pos h1] at h; exact Except.noConfusion h
  rw [if_neg h1] at h
  by_cases h2 : a ≠ ("X") ∧ a ≠ ("O")
  · rw [if_pos h2] at h; exact Except.noConfusion h
  rw [if_neg h2] at h
  by_cases h3 : d ≠ ("random") ∧ d ≠ ("optimal")
  · rw [if_pos h3] at h; exact Except.noConfusion h
  rw [if_neg h3] at h
  by_cases h4 : (calculateWinner board).isSome = true ∨ isDraw board = true
  · rw [if_pos h4] at h; exact Except.noConfusion h
  rw [if_neg h4] at h
  by_cases h5 : (emptyCells board).length = 0
  · rw [if_pos h5] at h; exact Except.noConfusion h
  rw [if_neg h5] at h
  have hlenpos : 0 < (emptyCells board).length := Nat.pos_of_ne_zero h5
  by_cases h6 : d = ("random")
  · rw [if_pos h6] at h
    have hi : (emptyCells board).getD (r % (emptyCells board).length) 0 = i := by
      cases h
      rfl
    have hlt : r % (emptyCells board).length < (emptyCells board).length :=
      Nat.mod_lt _ hlenpos
    have hmem : i ∈ emptyCells board := by
      rw [← hi, List.getD_eq_getElem _ _ hlt]
      exact List.getElem_mem hlt
    exact (mem_emptyCells.mp hmem).2
  · rw [if_neg h6] at h
    cases hmv : (minimax board (if a = ("X") then Mark.X else Mark.O)
        (if (board.filter (fun c => c.isSome)).length % 2 = 0 then Mark.X
          else Mark.O)).2 with
    | some m =>
      rw [hmv] at h
      cases h
      have hpair : minimax board (if a = ("X") then Mark.X else Mark.O)
          (if (board.filter (fun c => c.isSome)).length % 2 = 0 then Mark.X
            else Mark.O) =
          ((minimax board (if a = ("X") then Mark.X else Mark.O)
            (if (board.filter (fun c => c.isSome)).length % 2 = 0 then Mark.X
              else Mark.O)).1, some i) :=
        Prod.ext rfl hmv
      have hfu := minimax_eq_fuel board (if a = ("X") then Mark.X else Mark.O)
        (if (board.filter (fun c => c.isSome)).length % 2 = 0 then Mark.X else Mark.O)
      rw [hpair] at hfu
      exact (mem_emptyCells.mp (minimaxFuel_move_mem hfu)).2
    | none =>
      rw [hmv] at h
      cases h
      cases hec : emptyCells board with
      | nil => exact absurd (by rw [hec]; rfl) h5
      | cons x xs =>
        have hx : x ∈ emptyCells board := by
          rw [hec]
          exact List.mem_cons_self _ _
        simpa using (mem_emptyCells.mp hx).2

/-- **C3** witness: on the board with only cell 0 occupied, the random
selector with draw 0 returns index 1, and cell 1 is indeed Empty. -/
theorem c3_witness :
    getAIMove [some Mark.X, none, none, none, none, none, none, none, none]
      ("X") ("random") 0 = Except.ok 1 ∧
    ([some Mark.X, none, none, none, none, none, none, none, none] :
      List Cell).get? 1 = some (none : Cell) :=
  ⟨by decide, c3_returned_index_is_empty _ ("X") ("random") 0 1 (by decide)⟩

/-- **C5**: both minimax loops update the best move only on strict
improvement, so the reported move is the first enumerated candidate among
those attaining the best score, every earlier candidate scoring strictly
worse and every later one no better; the enumeration `emptyCells` is
strictly increasing, so that first candidate is the lowest empty-cell
index; and every move-carrying `minimaxFuel` result arises from one of the
two loops over exactly the `emptyCells` enumeration. -/
theorem c5_first_best_tiebreak :
    (∀ (cands : List (Nat × Int)) (s : Int) (m : Nat),
      bestFoldMax cands = (some s, some m) →
      ∃ l₁ l₂, cands = l₁ ++ (m, s) :: l₂ ∧ (∀ p ∈ l₁, p.2 < s) ∧ ∀ p ∈ l₂, p.2 ≤ s) ∧
    (∀ (cands : List (Nat × Int)) (s : Int) (m : Nat),
      bestFoldMin cands = (some s, some m) →
      ∃ l₁ l₂, cands = l₁ ++ (m, s) :: l₂ ∧ (∀ p ∈ l₁, s < p.2) ∧ ∀ p ∈ l₂, s ≤ p.2) ∧
    (∀ board : List Cell, List.Pairwise (· < ·) (emptyCells board)) ∧
    (∀ (fuel : Nat) (board : List Cell) (ai cm : Mark) (s : Int) (m : Nat),
      minimaxFuel fuel board ai cm = some (s, some m) →
      ∃ fuel' cands, fuel = fuel' + 1 ∧
        collectScores (fun b => minimaxFuel fuel' b ai (flipMark ai)) board cm
          (emptyCells board) = some cands ∧
        cands.map Prod.fst = emptyCells board ∧
        ((cm = ai ∧ bestFoldMax cands = (some s, some m)) ∨
          (cm ≠ ai ∧ bestFoldMin cands = (some s, some m)))) :=
  ⟨fun _ _ _ h => bestFoldMax_split h, fun _ _ _ h => bestFoldMin_split h,
    emptyCells_pairwise,
    fun _ _ _ _ _ _ h => by
      obtain ⟨f, c, h1, _, _, h4, h5, h6⟩ := minimaxFuel_move_inv h
      exact ⟨f, c, h1, h4, h5, h6⟩⟩

/-- **C5** witness: the maximising loop on candidates with a tie at the
best score 5 keeps the first one, index 2. -/
theorem c5_witness :
    bestFoldMax [(2, 5), (4, 5), (6, 1)] = (some 5, some 2) ∧
    (∃ l₁ l₂, [((2 : Nat), (5 : Int)), (4, 5), (6, 1)] = l₁ ++ (2, 5) :: l₂ ∧
      (∀ p ∈ l₁, p.2 < 5) ∧ ∀ p ∈ l₂, p.2 ≤ 5) :=
  ⟨by decide, c5_first_best_tiebreak.1 _ 5 2 (by decide)⟩

/-- **C9**: minimax terminates on every board: each simulated move strictly
decreases the number of empty cells, that number is at most the board
length (9 for a legal board), fuel exceeding it makes the fuelled
recursion total, and the wrapper `minimax` is computed by the fuelled
recursion at fuel `emptyCells + 1`. -/
theorem c9_minimax_total :
    (∀ (board : List Cell) (idx : Nat) (m : Mark), idx ∈ emptyCells board →
      (emptyCells (board.set idx (some m))).length < (emptyCells board).length) ∧
    (∀ board : List Cell, (emptyCells board).length ≤ board.length) ∧
    (∀ (fuel : Nat) (board : List Cell) (ai cm : Mark),
      (emptyCells board).length < fuel → (minimaxFuel fuel board ai cm).isSome = true) ∧
    (∀ (board : List Cell) (ai cm : Mark),
      minimaxFuel ((emptyCells board).length + 1) board ai cm =
        some (minimax board ai cm)) :=
  ⟨fun _ idx m h => length_emptyCells_set m h, length_emptyCells_le,
    minimaxFuel_isSome, minimax_eq_fuel⟩

/-- **C9** witness: on the board `[Empty, X]`, playing `O` at the empty
cell 0 strictly decreases the empty count, and fuel 2 makes the fuelled
minimax defined. -/
theorem c9_witness :
    (0 ∈ emptyCells [none, some Mark.X] ∧
      (emptyCells (([none, some Mark.X] : List Cell).set 0 (some Mark.O))).length <
        (emptyCells [none, some Mark.X]).length) ∧
    (emptyCells ([none, some Mark.X] : List Cell)).length < 2 ∧
    (minimaxFuel 2 [none, some Mark.X] Mark.X Mark.O).isSome = true :=
  ⟨⟨by decide, c9_minimax_total.1 _ 0 Mark.O (by decide)⟩, by decide,
    c9_minimax_total.2.2.1 2 [none, some Mark.X] Mark.X Mark.O (by decide)⟩

/-- **C6**: on the board `[O,O,_,X,X,_,_,_,_]` with `aiMark = O` and
difficulty `optimal`, `getAIMove` returns index 2 (the random draw
argument is irrelevant to the optimal branch; it is instantiated at 0);
the board has four non-empty cells, so the parity rule derives `X` as the
mark to move. -/
theorem c6_scenario_c :
    getAIMove [some Mark.O, some Mark.O, none, some Mark.X, some Mark.X,
      none, none, none, none] ("O") ("optimal") 0 = Except.ok 2 ∧
    (([some Mark.O, some Mark.O, none, some Mark.X, some Mark.X, none, none,
      none, none] : List Cell).filter (fun c => c.isSome)).length % 2 = 0 := by
  constructor
  · exact c6_move
  · decide

/-- **C4** (refutation trace): the Optimal selector CAN lose.  In the game
`X:0, O:1, X:4, O:2, X:8` from the empty board, `O`'s moves 1 and 2 are
exactly what `getAIMove` with difficulty `optimal` returns on its turns
(boards `[X,_,_,_,_,_,_,_,_]` and `[X,O,_,_,X,_,_,_,_]`), `X`'s replies 4
and 8 are legal (`validateMove` accepts them), and the final board has
`calculateWinner = X`, the opponent of the optimal side.  The cause is
`ai.js` line 124: the minimising branch recurses with
`aiMark === 'X' ? 'O' : 'X'` — a constant the recursion never flips back —
so after the AI's first simulated move the simulation lets the opponent
move at every subsequent turn, every reply scores −10, and the AI plays
the lowest empty index (here 1, then 2) instead of taking the centre or
blocking the `(0,4,8)` diagonal. -/
theorem c4_optimal_can_lose :
    getAIMove [some Mark.X, none, none, none, none, none, none, none, none]
      ("O") ("optimal") 0 = Except.ok 1 ∧
    (validateMove [some Mark.X, some Mark.O, none, none, none, none, none, none,
      none] 4).valid = true ∧
    getAIMove [some Mark.X, some Mark.O, none, none, some Mark.X, none, none,
      none, none] ("O") ("optimal") 0 = Except.ok 2 ∧
    (validateMove [some Mark.X, some Mark.O, some Mark.O, none, some Mark.X,
      none, none, none, none] 8).valid = true ∧
    calculateWinner [some Mark.X, some Mark.O, some Mark.O, none, some Mark.X,
      none, none, none, some Mark.X] = some Mark.X ∧
    isDraw [some Mark.X, some Mark.O, some Mark.O, none, some Mark.X, none,
      none, none, some Mark.X] = false := by
  refine ⟨?_, by decide, ?_, by decide, by decide, by decide⟩
  · exact c4_first_move
  · exact c4_second_move

